import Mathlib

/-!
Verification development for the PCA9685 I2C PWM driver
(src/drivers/pca9685_ucan/pca9685_ucan.cpp).

The driver's arithmetic is single-precision (binary32) floating point.
Every value that actually occurs is far inside the normal range of
binary32, so we embed the float operations exactly: a binary32 number is
represented as a pair (m, e) of a 24-bit mantissa m and an exponent
e : ℤ, denoting the rational m * 2 ^ (e - 23), and each C float
operation is one round-to-nearest-even of the exact rational result.
All computations are executable natural-number arithmetic.
-/

namespace PCA9685

/-- Number of binary digits of a natural number (0 for 0), with explicit
structural fuel so the kernel can evaluate it. -/
def bitLenAux : ℕ → ℕ → ℕ
  | 0, _ => 0
  | fuel+1, n => if n = 0 then 0 else bitLenAux fuel (n / 2) + 1

/-- Number of binary digits of a natural number. -/
def bitLen (n : ℕ) : ℕ := bitLenAux n n

/-- The binade exponent of the positive rational a / b: the unique e with
2 ^ e ≤ a / b < 2 ^ (e + 1). -/
def ratExp (a b : ℕ) : ℤ :=
  let e0 : ℤ := (bitLen a : ℤ) - (bitLen b : ℤ)
  if 0 ≤ e0 then (if b * 2 ^ e0.toNat ≤ a then e0 else e0 - 1)
  else (if b ≤ a * 2 ^ (-e0).toNat then e0 else e0 - 1)

/-- Round the nonnegative rational a / b to the nearest integer, ties to
even. -/
def rneNat (a b : ℕ) : ℕ :=
  let q := a / b
  let r := a % b
  if 2 * r < b then q
  else if b < 2 * r then q + 1
  else if q % 2 = 0 then q else q + 1

/-- Round the nonnegative rational a / b to binary32 (24 significant
bits, round to nearest, ties to even), returned as a mantissa/exponent
pair (m, e) denoting m * 2 ^ (e - 23). -/
def rn24Pair (a b : ℕ) : ℕ × ℤ :=
  if a = 0 then (0, 0)
  else
    let e := ratExp a b
    let m := if e ≤ 23 then rneNat (a * 2 ^ (23 - e).toNat) b
             else rneNat a (b * 2 ^ (e - 23).toNat)
    (m, e)

/-- Truncate the dyadic rational m * 2 ^ (e - 23) toward zero to a
natural number (the semantics of a C float-to-unsigned cast for
in-range values). -/
def truncDyadic (m : ℕ) (e : ℤ) : ℕ :=
  if 23 ≤ e then m * 2 ^ (e - 23).toNat else m / 2 ^ (23 - e).toNat

/-- The dyadic rational m * 2 ^ (e - 23) as a numerator/denominator pair
of naturals. -/
def dyadicFrac (m : ℕ) (e : ℤ) : ℕ × ℕ :=
  if 23 ≤ e then (m * 2 ^ (e - 23).toNat, 1) else (m, 2 ^ (23 - e).toNat)

/-- The dyadic rational m * 2 ^ (e - 23) as a rational number. -/
def dyadicToQ (m : ℕ) (e : ℤ) : ℚ :=
  if 23 ≤ e then ((m * 2 ^ (e - 23).toNat : ℕ) : ℚ)
  else (m : ℚ) / ((2 ^ (23 - e).toNat : ℕ) : ℚ)

/-- Nearest-integer rounding by add-one-half-then-floor, the rounding
the spec prescribes for the prescaler formula. -/
def ratRound (x : ℚ) : ℤ := ⌊x + 1 / 2⌋

/-! Register-map constants from the source. -/

def PCA9685_MODE1 : ℕ := 0x0
def PCA9685_PRESCALE : ℕ := 0xFE
def LED0_ON_L : ℕ := 0x6
def NUMBER_PWM_CHANNELS : ℕ := 16
def PWM_PERIOD_MIN_US : ℕ := 656
def PWM_PERIOD_MAX_US : ℕ := 41666

/-! The Channel Output Encoder: setPWM and setPin.

setPWM builds the 5-byte frame
  [LED0_ON_L + 4*num, on low byte, on high byte, off low byte, off high byte]
and issues it as a single transfer. -/

/-- The 5-byte frame setPWM(num, on, off) sends in its single transfer.
Byte values are the uint8 truncations the C assignments perform. -/
def setPWMFrame (num onv offv : ℕ) : List ℕ :=
  [(LED0_ON_L + 4 * num) % 256, onv % 256, onv / 256 % 256, offv % 256, offv / 256 % 256]

/-- setPin(num, val): clamp val to [0, 4095]; 4095 maps to the full-on
pair (4096, 0), 0 maps to the full-off pair (0, 4096), anything else to
(0, val). Returns the (on, off) pair together with the list of frames
written (always exactly one setPWM frame). -/
def setPin (num val : ℕ) : (ℕ × ℕ) × List (List ℕ) :=
  let v := if 4095 < val then 4095 else val
  if v = 4095 then ((4096, 0), [setPWMFrame num 4096 0])
  else if v = 0 then ((0, 4096), [setPWMFrame num 0 4096])
  else ((0, v), [setPWMFrame num 0 v])

/-! The per-channel duty computation of RunImpl (Normal mode):
  uint16_t new_value = (uint16_t)(((float)p / (float)w) * 4096.0f);
p and w are uint16 values, hence exactly representable in binary32; the
division rounds once; the multiplication by 4096 is an exact exponent
shift; the cast truncates toward zero and reduces modulo 2^16 (the
behaviour of the generated code on the 32-bit target; ISO C++ leaves the
out-of-range cast undefined). Division by w = 0 is undefined, so the
total embedding guards it with Option. -/

/-- Truncation toward zero of the binary32 value (float)p / (float)w * 4096.0f. -/
def floatDutyTrunc (p w : ℕ) : ℕ :=
  let me := rn24Pair p w
  truncDyadic me.1 (me.2 + 12)

/-- The uint16 new_value RunImpl computes for period p and pulse width w. -/
def newDuty (p w : ℕ) : ℕ := floatDutyTrunc p w % 65536

/-- Guarded duty computation: none exactly when the pulse width is zero,
where the C code would divide by zero. -/
def computeNewValue (p w : ℕ) : Option ℕ :=
  if w = 0 then none else some (newDuty p w)

/-- The stored frequency 1000000.0f / (float)p (binary32 division of the
exact operands), kept as the binary32 mantissa/exponent pair. -/
def pcaFreq (p : ℕ) : ℕ × ℤ := rn24Pair 1000000 p

/-- The binary32 value of a small natural-number constant (exact for the
constants appearing in the driver). -/
def float32Of (n : ℕ) : ℕ × ℤ := rn24Pair n 1

/-! The Frequency Configurator's prescaler computation:
  float prescaleval = 25000000; prescaleval /= 4096; prescaleval /= freq;
  prescaleval -= 1; uint8_t prescale = uint8_t(prescaleval + 0.5f);
25000000 is exactly representable in binary32 and the division by 4096
is an exact exponent shift, so after the first two steps the float holds
exactly 390625 / 64. The division by freq, the subtraction of 1 and the
addition of 0.5f each round once; the cast truncates. -/

/-- The prescaler byte the driver computes for an integer frequency f. -/
def prescaleOf (f : ℕ) : ℕ :=
  let s1 := rn24Pair 390625 (64 * f)
  let r1 := dyadicFrac s1.1 s1.2
  let s2 := rn24Pair (r1.1 - r1.2) r1.2
  let r2 := dyadicFrac s2.1 s2.2
  let s3 := rn24Pair (2 * r2.1 + r2.2) (2 * r2.2)
  truncDyadic s3.1 s3.2

/-- Modelled from the spec: the documented prescaler formula
round(25_000_000 / 4096 / f) - 1 with add-0.5-then-truncate rounding, in
exact natural arithmetic: (25000000/(4096 f) + 1/2 floored) - 1. -/
def specPrescale (f : ℕ) : ℕ :=
  (2 * 25000000 + 4096 * f) / (2 * (4096 * f)) - 1

/-! The driver state and the Control Loop (RunImpl).

The fields mirror the private members of class PCA9685; uint16 members
are naturals kept below 2^16 by the operations themselves, the float
member pwm_freq is kept as its binary32 mantissa/exponent pair. -/

inductive IOX_MODE where
  | IOX_MODE_ON
  | IOX_MODE_TEST_OUT
deriving DecidableEq

/-- One pca_pwm uORB message: desired period and 16 pulse widths. -/
structure pca_pwm_s where
  pwm_period : ℕ
  pulse_width : List ℕ
deriving DecidableEq

/-- The mutable driver state established by the constructor and updated
by RunImpl. -/
structure DriverState where
  mode : IOX_MODE
  i2cpwm_interval : ℕ
  pwm_period_us : ℕ
  pwm_freq : ℕ × ℤ
  test_pwm : ℕ
  current_values : List ℕ
  mode_on_init_done : Bool
deriving DecidableEq

/-- The state the constructor leaves behind: mode IOX_MODE_ON, interval
(uint64)((float)20000) = 20000 µs, period 20000 µs, frequency 50.0f,
test value 0, all 16 current values zeroed. -/
def initialState : DriverState :=
  { mode := .IOX_MODE_ON
    i2cpwm_interval := 20000
    pwm_period_us := 20000
    pwm_freq := float32Of 50
    test_pwm := 0
    current_values := List.replicate NUMBER_PWM_CHANNELS 0
    mode_on_init_done := false }

/-- One setPin call observed during a tick: the channel, the raw value
passed to setPin, and whether its single i2c transfer succeeded. -/
structure WriteEv where
  channel : ℕ
  value : ℕ
  ok : Bool
deriving DecidableEq

/-- Attach transfer outcomes to the writes of a tick in issue order: the
k-th write's success is wok k. -/
def attachOk : (ℕ → Bool) → List (ℕ × ℕ) → List WriteEv
  | _, [] => []
  | wok, e :: t => ⟨e.1, e.2, wok 0⟩ :: attachOk (fun k => wok (k + 1)) t

/-- The guard of the Normal-mode channel update:
new_value != _current_values[i] && new_value < 4096. -/
def chanGuard (cur nv : ℕ) : Bool := (nv != cur) && decide (nv < 4096)

/-- Outcome of one iteration of the Normal-mode channel loop: channel
index, previous value, computed new_value, and whether the guard passed
(setPin called and _current_values[i] assigned). -/
structure ChanOut where
  channel : ℕ
  oldVal : ℕ
  nv : ℕ
  written : Bool
deriving DecidableEq

/-- One iteration of the Normal-mode channel loop at channel i. -/
def chanOut (p i cur w : ℕ) : ChanOut :=
  let nv := newDuty p w
  ⟨i, cur, nv, chanGuard cur nv⟩

/-- The value _current_values[i] holds after the iteration. -/
def chanNewVal (o : ChanOut) : ℕ := if o.written then o.nv else o.oldVal

/-- The setPin call the iteration issues, if any. -/
def chanWriteOf (o : ChanOut) : Option (ℕ × ℕ) :=
  if o.written then some (o.channel, o.nv) else none

/-- The Normal-mode channel loop over the 16 (current value, pulse
width) pairs. The iterations are independent, so the loop is embedded
as a map over the indexed pairs; it is none when some iterated pulse
width is zero (the C code would divide by zero there). -/
def normalChannels (p : ℕ) (curs ws : List ℕ) : Option (List ChanOut) :=
  if (curs.zip ws).any (fun cw => cw.2 == 0) then none
  else some (((curs.zip ws).enum).map fun icw => chanOut p icw.1 icw.2.1 icw.2.2)

/-- The period-adoption step of RunImpl: a fresh command's period is
adopted, and the frequency recomputed as 1000000.0f / period, exactly
when it differs from the current period and lies within
[PWM_PERIOD_MIN_US, PWM_PERIOD_MAX_US]. -/
def updatePeriod (s : DriverState) (c : pca_pwm_s) : DriverState :=
  if c.pwm_period ≠ s.pwm_period_us ∧
     PWM_PERIOD_MIN_US ≤ c.pwm_period ∧ c.pwm_period ≤ PWM_PERIOD_MAX_US then
    { s with pwm_period_us := c.pwm_period, pwm_freq := pcaFreq c.pwm_period }
  else s

/-- One invocation of RunImpl. cmd is the fresh pca_pwm snapshot if
orb_check reported an update (Normal mode polls it; TestPattern mode
does not). wok gives the success of the k-th i2c transfer of this tick.
Returns the new state, the setPin calls issued, and the delay passed to
ScheduleDelayed; none when the tick divides by zero. -/
def runImpl (s : DriverState) (cmd : Option pca_pwm_s) (wok : ℕ → Bool) :
    Option (DriverState × List WriteEv × ℕ) :=
  if s.mode = .IOX_MODE_TEST_OUT then
    let t0 := if 4096 < s.test_pwm then 0 else s.test_pwm
    let evs := attachOk wok ((List.range NUMBER_PWM_CHANNELS).map fun i => (i, t0))
    some ({ s with test_pwm := (t0 + 4096 / 10) % 65536 }, evs, s.i2cpwm_interval)
  else
    let s0 := { s with mode_on_init_done := true }
    match cmd with
    | none => some (s0, [], s0.i2cpwm_interval)
    | some c =>
      let s1 := updatePeriod s0 c
      match normalChannels s1.pwm_period_us s0.current_values c.pulse_width with
      | none => none
      | some outs =>
        some ({ s1 with current_values := outs.map chanNewVal },
              attachOk wok (outs.filterMap chanWriteOf),
              s1.i2cpwm_interval)

/-! The Frequency Configurator (setPWMFreq): register-level trace. -/

/-- A register-level operation performed by setPWMFreq. -/
inductive RegOp where
  | readReg (addr : ℕ)
  | writeReg (addr val : ℕ)
  | sleepUs (us : ℕ)
deriving DecidableEq

/-- setPWMFreq for an integer frequency f. okAt k is the transport
success of the k-th register operation (the sleep is not a register
operation); readVal is the MODE1 byte a successful read returns.
Returns the operations performed in order, the number of ErrorCounter
increments, and whether the call returned OK. Each failing helper call
(read8 or write8) increments the counter exactly once, and the sequence
aborts at the first failure. -/
def setPWMFreq (f : ℕ) (readVal : ℕ) (okAt : ℕ → Bool) :
    List RegOp × ℕ × Bool :=
  let prescale := prescaleOf f
  if okAt 0 = false then ([.readReg PCA9685_MODE1], 1, false)
  else
    let oldmode := readVal % 256
    let newmode := (oldmode &&& 0x7F) ||| 0x10
    if okAt 1 = false then
      ([.readReg PCA9685_MODE1, .writeReg PCA9685_MODE1 newmode], 1, false)
    else if okAt 2 = false then
      ([.readReg PCA9685_MODE1, .writeReg PCA9685_MODE1 newmode,
        .writeReg PCA9685_PRESCALE prescale], 1, false)
    else if okAt 3 = false then
      ([.readReg PCA9685_MODE1, .writeReg PCA9685_MODE1 newmode,
        .writeReg PCA9685_PRESCALE prescale, .writeReg PCA9685_MODE1 oldmode], 1, false)
    else if okAt 4 = false then
      ([.readReg PCA9685_MODE1, .writeReg PCA9685_MODE1 newmode,
        .writeReg PCA9685_PRESCALE prescale, .writeReg PCA9685_MODE1 oldmode,
        .sleepUs 5000, .writeReg PCA9685_MODE1 (oldmode ||| 0xA1)], 1, false)
    else
      ([.readReg PCA9685_MODE1, .writeReg PCA9685_MODE1 newmode,
        .writeReg PCA9685_PRESCALE prescale, .writeReg PCA9685_MODE1 oldmode,
        .sleepUs 5000, .writeReg PCA9685_MODE1 (oldmode ||| 0xA1)], 0, true)

/-- Register operations (reads and writes, not sleeps) of a trace. -/
def regOpsOf (ops : List RegOp) : List RegOp :=
  ops.filter fun o => match o with
    | .sleepUs _ => false
    | _ => true

/-- The reads of a trace. -/
def readsOf (ops : List RegOp) : List RegOp :=
  ops.filter fun o => match o with
    | .readReg _ => true
    | _ => false

/-- The writes of a trace. -/
def writesOf (ops : List RegOp) : List RegOp :=
  ops.filter fun o => match o with
    | .writeReg _ _ => true
    | _ => false

/-- Whether the driver's prescaler agrees with the spec's formula at
frequency f. -/
def prescaleAgree (f : ℕ) : Bool := prescaleOf f == specPrescale f

/-- Balanced-recursion check of prescaleAgree on the range [a, a+n),
with fuel bounding the splitting depth. -/
def agreeRange : ℕ → ℕ → ℕ → Bool
  | 0, _, _ => false
  | fuel+1, a, n =>
    if n = 0 then true
    else if n = 1 then prescaleAgree a
    else agreeRange fuel a (n / 2) && agreeRange fuel (a + n / 2) (n - n / 2)

/-! Helper lemmas. -/

lemma agreeRange_sound : ∀ fuel a n, agreeRange fuel a n = true →
    ∀ g, g < n → prescaleAgree (a + g) = true := by
  intro fuel
  induction fuel with
  | zero => intro a n h; simp [agreeRange] at h
  | succ fuel ih =>
    intro a n h g hg
    rw [agreeRange] at h
    have hn0 : n ≠ 0 := by omega
    rw [if_neg hn0] at h
    by_cases h1 : n = 1
    · have hg0 : g = 0 := by omega
      subst hg0
      rw [if_pos h1] at h
      simpa using h
    · rw [if_neg h1, Bool.and_eq_true] at h
      rcases Nat.lt_or_ge g (n / 2) with hlt | hge
      · exact ih a (n / 2) h.1 g hlt
      · have h2 := ih (a + n / 2) (n - n / 2) h.2 (g - n / 2) (by omega)
        have heq : a + n / 2 + (g - n / 2) = a + g := by omega
        rwa [heq] at h2

set_option maxRecDepth 8000 in
set_option maxHeartbeats 4000000 in
lemma agreeRange_full : agreeRange 12 24 1503 = true := by decide

/-- On the chip's valid frequency range the binary32 computation agrees
with the exact rational formula. -/
lemma prescale_agrees (f : ℕ) (h1 : 24 ≤ f) (h2 : f ≤ 1526) :
    prescaleOf f = specPrescale f := by
  have h := agreeRange_sound 12 24 1503 agreeRange_full (f - 24) (by omega)
  have heq : 24 + (f - 24) = f := by omega
  rw [heq] at h
  simp only [prescaleAgree, beq_iff_eq] at h
  exact h

lemma setPin_pair_high (num v : ℕ) (h : 4095 ≤ v) : (setPin num v).1 = (4096, 0) := by
  unfold setPin
  by_cases h1 : 4095 < v
  · simp [h1]
  · have hv : v = 4095 := by omega
    simp [hv]

lemma setPin_pair_zero (num : ℕ) : (setPin num 0).1 = (0, 4096) := by
  simp [setPin]

lemma setPin_pair_mid (num v : ℕ) (h1 : 1 ≤ v) (h2 : v ≤ 4094) :
    (setPin num v).1 = (0, v) := by
  unfold setPin
  simp [show ¬ 4095 < v by omega, show ¬ v = 4095 by omega, show ¬ v = 0 by omega]

lemma setPin_frames (num v : ℕ) :
    (setPin num v).2 = [setPWMFrame num (setPin num v).1.1 (setPin num v).1.2] := by
  unfold setPin
  dsimp only
  split_ifs <;> rfl

lemma attachOk_mem (wok : ℕ → Bool) (l : List (ℕ × ℕ)) (c v : ℕ) :
    (∃ ev ∈ attachOk wok l, ev.channel = c ∧ ev.value = v) ↔ (c, v) ∈ l := by
  induction l generalizing wok with
  | nil => simp [attachOk]
  | cons e t ih =>
    simp only [attachOk, List.mem_cons]
    constructor
    · rintro ⟨ev, hev | hev, hc, hv⟩
      · left
        subst hev
        simp only at hc hv
        rw [← hc, ← hv]

      · right
        exact (ih _).mp ⟨ev, hev, hc, hv⟩
    · rintro (he | ht)
      · exact ⟨⟨e.1, e.2, wok 0⟩, Or.inl rfl, congrArg Prod.fst he.symm, congrArg Prod.snd he.symm⟩
      · rcases (ih (fun k => wok (k + 1))).mpr ht with ⟨ev, hmem, hc, hv⟩
        exact ⟨ev, Or.inr hmem, hc, hv⟩

lemma updatePeriod_period (s : DriverState) (c : pca_pwm_s) :
    (updatePeriod s c).pwm_period_us =
      if c.pwm_period ≠ s.pwm_period_us ∧
         PWM_PERIOD_MIN_US ≤ c.pwm_period ∧ c.pwm_period ≤ PWM_PERIOD_MAX_US
      then c.pwm_period else s.pwm_period_us := by
  unfold updatePeriod
  split <;> simp_all

lemma updatePeriod_freq (s : DriverState) (c : pca_pwm_s) :
    (updatePeriod s c).pwm_freq =
      if c.pwm_period ≠ s.pwm_period_us ∧
         PWM_PERIOD_MIN_US ≤ c.pwm_period ∧ c.pwm_period ≤ PWM_PERIOD_MAX_US
      then pcaFreq c.pwm_period else s.pwm_freq := by
  unfold updatePeriod
  split <;> simp_all

lemma updatePeriod_interval (s : DriverState) (c : pca_pwm_s) :
    (updatePeriod s c).i2cpwm_interval = s.i2cpwm_interval := by
  unfold updatePeriod
  split <;> rfl

lemma updatePeriod_mode (s : DriverState) (c : pca_pwm_s) :
    (updatePeriod s c).mode = s.mode := by
  unfold updatePeriod
  split <;> rfl

lemma updatePeriod_currents (s : DriverState) (c : pca_pwm_s) :
    (updatePeriod s c).current_values = s.current_values := by
  unfold updatePeriod
  split <;> rfl


lemma chanGuard_iff (cur nv : ℕ) : chanGuard cur nv = true ↔ (nv ≠ cur ∧ nv < 4096) := by
  simp [chanGuard]

lemma normalChannels_some (p : ℕ) (curs ws : List ℕ) (outs : List ChanOut)
    (h : normalChannels p curs ws = some outs) :
    outs = ((curs.zip ws).enum).map fun icw => chanOut p icw.1 icw.2.1 icw.2.2 := by
  unfold normalChannels at h
  split at h
  · exact Option.noConfusion h
  · exact (Option.some_inj.mp h).symm

lemma normalChannels_entry (p : ℕ) (curs ws : List ℕ) (outs : List ChanOut)
    (h : normalChannels p curs ws = some outs)
    (i cur w : ℕ) (hcur : curs[i]? = some cur) (hw : ws[i]? = some w) :
    outs[i]? = some (chanOut p i cur w) := by
  rw [normalChannels_some p curs ws outs h]
  rw [List.getElem?_map, List.getElem?_enum]
  have hz : (curs.zip ws)[i]? = some (cur, w) :=
    List.getElem?_zip_eq_some.mpr ⟨hcur, hw⟩
  rw [hz]
  rfl

lemma normalChannels_mem_elim (p : ℕ) (curs ws : List ℕ) (outs : List ChanOut)
    (h : normalChannels p curs ws = some outs) (o : ChanOut) (ho : o ∈ outs) :
    ∃ cur w, curs[o.channel]? = some cur ∧ ws[o.channel]? = some w ∧
      o = chanOut p o.channel cur w := by
  rw [normalChannels_some p curs ws outs h] at ho
  rcases List.mem_map.mp ho with ⟨icw, hmem, hfo⟩
  obtain ⟨k, cw⟩ := icw
  have h2 := List.mem_enum hmem
  have hz : (curs.zip ws)[k]? = some cw :=
    List.getElem?_eq_some.mpr ⟨h2.1, h2.2.symm⟩
  have h3 := List.getElem?_zip_eq_some.mp hz
  refine ⟨cw.1, cw.2, ?_, ?_, ?_⟩
  · rw [← hfo]; exact h3.1
  · rw [← hfo]; exact h3.2
  · rw [← hfo]; rfl

lemma normalChannels_event_iff (p : ℕ) (curs ws : List ℕ) (outs : List ChanOut)
    (h : normalChannels p curs ws = some outs)
    (i cur w : ℕ) (hcur : curs[i]? = some cur) (hw : ws[i]? = some w) :
    ((i, newDuty p w) ∈ outs.filterMap chanWriteOf ↔
      chanGuard cur (newDuty p w) = true) := by
  constructor
  · intro hm
    rcases List.mem_filterMap.mp hm with ⟨o, ho, hgo⟩
    unfold chanWriteOf at hgo
    by_cases hwr : o.written = true
    · rw [if_pos hwr] at hgo
      have hpair := Option.some_inj.mp hgo
      have hchan : o.channel = i := congrArg Prod.fst hpair
      rcases normalChannels_mem_elim p curs ws outs h o ho with ⟨cur2, w2, hc2, hw2, heq⟩
      rw [hchan] at hc2 hw2
      rw [hcur] at hc2
      rw [hw] at hw2
      have hcur2 : cur2 = cur := (Option.some_inj.mp hc2).symm
      have hw2' : w2 = w := (Option.some_inj.mp hw2).symm
      rw [hcur2, hw2'] at heq
      rw [heq] at hwr
      exact hwr
    · rw [if_neg hwr] at hgo
      exact Option.noConfusion hgo
  · intro hg
    have hentry := normalChannels_entry p curs ws outs h i cur w hcur hw
    have hmem : chanOut p i cur w ∈ outs := List.getElem?_mem hentry
    refine List.mem_filterMap.mpr ⟨chanOut p i cur w, hmem, ?_⟩
    have hwr : (chanOut p i cur w).written = true := hg
    unfold chanWriteOf
    rw [if_pos hwr]
    rfl

/-- C5: setPin first clamps the value to [0, 4095]; a clamped 4095 maps
to the fully-on pair (4096, 0), 0 maps to the fully-off pair (0, 4096),
every other value v maps to (0, v); and the resulting pair is issued as
exactly one setPWM frame. -/
theorem C5_setPin_encoding (num v : ℕ) :
    setPin num v = setPin num (min v 4095) ∧
    (4095 ≤ v → (setPin num v).1 = (4096, 0)) ∧
    (v = 0 → (setPin num v).1 = (0, 4096)) ∧
    (1 ≤ v → v ≤ 4094 → (setPin num v).1 = (0, v)) ∧
    (setPin num v).2 = [setPWMFrame num (setPin num v).1.1 (setPin num v).1.2] := by
  refine ⟨?_, fun h => setPin_pair_high num v h,
    fun h => by rw [h]; exact setPin_pair_zero num,
    fun h1 h2 => setPin_pair_mid num v h1 h2, setPin_frames num v⟩
  by_cases h : 4095 < v
  · have hm : min v 4095 = 4095 := by omega
    rw [hm]
    unfold setPin
    simp [h]
  · have hm : min v 4095 = v := by omega
    rw [hm]

theorem C5_witness :
    (setPin 0 5000).1 = (4096, 0) ∧
    (setPin 1 0).1 = (0, 4096) ∧
    (setPin 2 1000).1 = (0, 1000) ∧
    (setPin 3 7).2 = [setPWMFrame 3 0 7] :=
  ⟨(C5_setPin_encoding 0 5000).2.1 (by decide),
   (C5_setPin_encoding 1 0).2.2.1 rfl,
   (C5_setPin_encoding 2 1000).2.2.2.1 (by decide) (by decide),
   ((C5_setPin_encoding 3 7).2.2.2.2).trans (by decide)⟩

/-- C6 as stated is false at v = 0: setPin produces the fully-off pair
(0, 4096), not (0, 0), although 0 lies in [0, 4094]. -/
theorem C6_counterexample :
    (0 : ℕ) ≤ 4094 ∧ (setPin 0 0).1 ≠ (0, 0) ∧ (setPin 0 0).1 = (0, 4096) := by
  decide

/-- C6 amended: for every duty value v in [1, 4094], setPin produces
the pair on=0, off=v. -/
theorem C6_mid_range (num v : ℕ) (h1 : 1 ≤ v) (h2 : v ≤ 4094) :
    (setPin num v).1 = (0, v) :=
  setPin_pair_mid num v h1 h2

theorem C6_witness : 1 ≤ 5 ∧ 5 ≤ 4094 ∧ (setPin 2 5).1 = (0, 5) :=
  ⟨by decide, by decide, C6_mid_range 2 5 (by decide) (by decide)⟩

/-- C9: the duty computation divides by the pulse width with no guard:
the total embedding returns none exactly on a zero pulse width, and a
whole Normal-mode tick whose command contains a zero pulse width has no
defined result. -/
theorem C9_division_by_zero :
    (∀ p, computeNewValue p 0 = none) ∧
    (∀ p w, w ≠ 0 → (computeNewValue p w).isSome = true) ∧
    runImpl initialState (some ⟨20000, 0 :: List.replicate 15 40000⟩) (fun _ => true) = none :=
  ⟨fun _ => rfl, fun p w h => by simp [computeNewValue, h], by decide⟩

theorem C9_witness :
    computeNewValue 20000 0 = none ∧ (computeNewValue 20000 40000).isSome = true :=
  ⟨C9_division_by_zero.1 20000, C9_division_by_zero.2.1 20000 40000 (by decide)⟩

/-- C10: the computed duty is reduced modulo 2^16 before the < 4096
guard: at period 20000 and pulse width 1250 the quotient is 16, the
pre-cast truncated value is 65536, the uint16 new_value wraps to 0,
and a tick whose channel 0 previously held 5 applies the spurious duty
0 to channel 0 and stores it. -/
theorem C10_uint16_wrap :
    20000 / 1250 = 16 ∧
    floatDutyTrunc 20000 1250 = 65536 ∧
    newDuty 20000 1250 = floatDutyTrunc 20000 1250 % 65536 ∧
    newDuty 20000 1250 = 0 ∧
    ((runImpl { initialState with current_values := 5 :: List.replicate 15 0 }
        (some ⟨20000, 1250 :: List.replicate 15 40000⟩) (fun _ => true)).map
      fun r => (r.1.current_values[0]?, r.2.1[0]?)) =
      some (some 0, some ⟨0, 0, true⟩) :=
  ⟨rfl, by decide, rfl, by decide, by decide⟩

/-- C2 amended: the per-channel last-applied value is updated whenever
the guard passes, regardless of the outcome of the setPin write: the
whole state evolution and the reschedule delay are independent of the
transfer-success oracle (the setPin return value is ignored), so a
failed channel write is not retried while the command stays unchanged. -/
theorem C2_state_ignores_write_results (s : DriverState) (cmd : Option pca_pwm_s)
    (wok wok' : ℕ → Bool) :
    (runImpl s cmd wok).map (fun r => (r.1, r.2.2)) =
    (runImpl s cmd wok').map (fun r => (r.1, r.2.2)) := by
  unfold runImpl
  split
  · simp
  · dsimp only
    split
    · rfl
    · split <;> rfl

/-- C2 as stated is false: channel 0's write fails (its event carries
ok = false) yet _current_values[0] is updated from 0 to 2048. -/
theorem C2_counterexample :
    ((runImpl initialState (some ⟨20000, List.replicate 16 40000⟩) (fun _ => false)).map
      fun r => (r.1.current_values[0]?, r.2.1[0]?)) =
      some (some 2048, some ⟨0, 2048, false⟩) ∧
    initialState.current_values[0]? = some 0 := by
  constructor <;> decide

/-- C3 amended: the Control Loop always reschedules itself with the
constructor-fixed interval _i2cpwm_interval (20000 µs, the initial
period), in both modes; the interval field is never updated, so after
an accepted period change the delay still equals the old interval, not
the newly adopted period. -/
theorem C3_reschedule_fixed_interval :
    initialState.i2cpwm_interval = 20000 ∧ initialState.pwm_period_us = 20000 ∧
    ∀ s cmd wok r, runImpl s cmd wok = some r →
      r.2.2 = s.i2cpwm_interval ∧ r.1.i2cpwm_interval = s.i2cpwm_interval := by
  refine ⟨rfl, rfl, ?_⟩
  intro s cmd wok r h
  unfold runImpl at h
  split at h
  · cases h
    exact ⟨rfl, rfl⟩
  · dsimp only at h
    split at h
    · cases h
      exact ⟨rfl, rfl⟩
    · split at h
      · exact Option.noConfusion h
      · cases h
        refine ⟨?_, ?_⟩ <;> simp [updatePeriod_interval]

theorem C3_witness :
    runImpl initialState none (fun _ => true) =
      some ({ initialState with mode_on_init_done := true }, [], 20000) ∧
    ((20000 : ℕ) = initialState.i2cpwm_interval ∧
      ({ initialState with mode_on_init_done := true } : DriverState).i2cpwm_interval =
        initialState.i2cpwm_interval) :=
  ⟨by decide,
   C3_reschedule_fixed_interval.2.2 initialState none (fun _ => true)
     ({ initialState with mode_on_init_done := true }, [], 20000) (by decide)⟩

/-- C3 as stated is false: a fresh command's period 10000 µs is adopted
(in range, different), but the delay passed to ScheduleDelayed is still
20000 µs, not the currently adopted period. -/
theorem C3_counterexample :
    ((runImpl initialState (some ⟨10000, List.replicate 16 40000⟩) (fun _ => true)).map
      fun r => (r.1.pwm_period_us, r.2.2)) = some (10000, 20000) ∧
    (10000 : ℕ) ≠ 20000 := by
  constructor <;> decide

/-- C4: in Normal mode, a fresh command's period is adopted, and the
stored frequency recomputed as 1000000 / period (in the driver's
binary32 arithmetic, pcaFreq), exactly when the commanded period
differs from the current one and lies within
[PWM_PERIOD_MIN_US, PWM_PERIOD_MAX_US] = [656, 41666]; otherwise period
and frequency are retained unchanged. -/
theorem C4_period_adoption (s : DriverState) (c : pca_pwm_s) (wok : ℕ → Bool)
    (hmode : s.mode = .IOX_MODE_ON) :
    (runImpl s (some c) wok).map (fun r => (r.1.pwm_period_us, r.1.pwm_freq)) =
    (runImpl s (some c) wok).map (fun _ =>
      if c.pwm_period ≠ s.pwm_period_us ∧ PWM_PERIOD_MIN_US ≤ c.pwm_period ∧
         c.pwm_period ≤ PWM_PERIOD_MAX_US
      then (c.pwm_period, pcaFreq c.pwm_period)
      else (s.pwm_period_us, s.pwm_freq)) := by
  unfold runImpl
  rw [if_neg (by simp [hmode])]
  dsimp only
  split
  · rfl
  · rw [updatePeriod_period, updatePeriod_freq]
    dsimp only
    split_ifs <;> rfl


/-- C1 amended: in Normal mode, for a fresh command and channel i, the
loop computes new_value as the binary32 computation
period / pulse_width * 4096 truncated to uint16 (newDuty of the
adopted period), applies it via setPin and stores it exactly when it
differs from the last-applied value and is strictly below 4096; values
at or above 4096 (in particular the boundary 4096 at equal period and
pulse width) are not applied. -/
theorem C1_duty_guard (s : DriverState) (c : pca_pwm_s) (wok : ℕ → Bool)
    (i cur w : ℕ)
    (hmode : s.mode = .IOX_MODE_ON)
    (hcur : s.current_values[i]? = some cur)
    (hw : c.pulse_width[i]? = some w)
    (r : DriverState × List WriteEv × ℕ)
    (hrun : runImpl s (some c) wok = some r)
    (nv : ℕ) (hnv : nv = newDuty (updatePeriod s c).pwm_period_us w) :
    r.1.current_values[i]? = some (if nv ≠ cur ∧ nv < 4096 then nv else cur) ∧
    ((∃ ev ∈ r.2.1, ev.channel = i ∧ ev.value = nv) ↔ (nv ≠ cur ∧ nv < 4096)) := by
  subst hnv
  have hp : (updatePeriod { s with mode_on_init_done := true } c).pwm_period_us =
      (updatePeriod s c).pwm_period_us := by
    rw [updatePeriod_period, updatePeriod_period]
  unfold runImpl at hrun
  rw [if_neg (by simp [hmode])] at hrun
  dsimp only at hrun
  rw [hp] at hrun
  cases hnc : normalChannels ((updatePeriod s c).pwm_period_us) s.current_values c.pulse_width with
  | none =>
    rw [hnc] at hrun
    exact Option.noConfusion hrun
  | some outs =>
    rw [hnc] at hrun
    have hr := Option.some_inj.mp hrun
    subst hr
    constructor
    · show (outs.map chanNewVal)[i]? = _
      rw [List.getElem?_map, normalChannels_entry _ _ _ _ hnc i cur w hcur hw]
      show some (chanNewVal (chanOut ((updatePeriod s c).pwm_period_us) i cur w)) = _
      unfold chanNewVal chanOut
      dsimp only
      rw [if_congr (chanGuard_iff cur (newDuty ((updatePeriod s c).pwm_period_us) w)) rfl rfl]
    · show (∃ ev ∈ attachOk wok (outs.filterMap chanWriteOf), _) ↔ _
      rw [attachOk_mem]
      rw [normalChannels_event_iff _ _ _ _ hnc i cur w hcur hw]
      exact chanGuard_iff cur _

/-- C1 as stated is false on the computation: the code truncates the
binary32 quotient rather than rounding to nearest. At period 20000 and
pulse width 30000 the claimed round formula gives 2731 while the loop
computes and applies 2730. -/
theorem C1_counterexample :
    newDuty 20000 30000 = 2730 ∧ (2730 : ℕ) ≠ 2731 ∧
    ratRound ((20000 : ℚ) / 30000 * 4096) = 2731 ∧
    ((runImpl initialState (some ⟨20000, List.replicate 16 30000⟩) (fun _ => true)).map
      fun r => r.2.1[0]?) = some (some ⟨0, 2730, true⟩) := by
  refine ⟨by decide, by decide, ?_, by decide⟩
  norm_num [ratRound]

theorem C1_witness :
    newDuty (updatePeriod initialState ⟨20000, List.replicate 16 20000⟩).pwm_period_us 20000 =
      4096 ∧
    (({ initialState with mode_on_init_done := true } : DriverState).current_values[0]? =
        some (if (4096 : ℕ) ≠ 0 ∧ (4096 : ℕ) < 4096 then 4096 else 0) ∧
      ((∃ ev ∈ ([] : List WriteEv), ev.channel = 0 ∧ ev.value = 4096) ↔
        ((4096 : ℕ) ≠ 0 ∧ (4096 : ℕ) < 4096))) :=
  ⟨by decide,
   C1_duty_guard initialState ⟨20000, List.replicate 16 20000⟩ (fun _ => true) 0 0 20000 rfl
     (by decide) (by decide) ({ initialState with mode_on_init_done := true }, [], 20000)
     (by decide) 4096 (by decide)⟩

lemma specPrescale_cast (f : ℕ) (h1 : 0 < f) (h2 : f ≤ 12207) :
    (specPrescale f : ℤ) = ratRound ((25000000 : ℚ) / 4096 / (f : ℚ)) - 1 := by
  unfold specPrescale ratRound
  have hf : (f : ℚ) ≠ 0 := by positivity
  have hx : (25000000 : ℚ) / 4096 / (f : ℚ) + 1 / 2 =
      ((2 * 25000000 + 4096 * f : ℕ) : ℚ) / ((2 * (4096 * f) : ℕ) : ℚ) := by
    push_cast
    field_simp
    ring
  rw [hx, Rat.floor_natCast_div_natCast]
  have hb : 0 < 2 * (4096 * f) := by positivity
  have hge : 1 ≤ (2 * 25000000 + 4096 * f) / (2 * (4096 * f)) := by
    rw [Nat.le_div_iff_mul_le hb]
    omega
  rw [Nat.cast_sub hge]
  push_cast
  rfl

/-- C7: for every integer frequency in the chip's valid range
[24, 1526] Hz, on an all-success transport the configurator performs
exactly the documented sequence of 1 read and 4 writes (with the 5 ms
sleep before the final write), and the prescaler byte equals
round(25000000/4096/f) - 1 (add-0.5-then-truncate rounding) and fits an
8-bit unsigned byte. -/
theorem C7_freq_config (f : ℕ) (h1 : 24 ≤ f) (h2 : f ≤ 1526)
    (readVal : ℕ) (okAt : ℕ → Bool) (hok : ∀ k, okAt k = true) :
    setPWMFreq f readVal okAt =
      ([.readReg PCA9685_MODE1,
        .writeReg PCA9685_MODE1 ((readVal % 256 &&& 0x7F) ||| 0x10),
        .writeReg PCA9685_PRESCALE (prescaleOf f),
        .writeReg PCA9685_MODE1 (readVal % 256),
        .sleepUs 5000,
        .writeReg PCA9685_MODE1 (readVal % 256 ||| 0xA1)], 0, true) ∧
    (prescaleOf f : ℤ) = ratRound ((25000000 : ℚ) / 4096 / (f : ℚ)) - 1 ∧
    prescaleOf f < 256 ∧
    (readsOf (setPWMFreq f readVal okAt).1).length = 1 ∧
    (writesOf (setPWMFreq f readVal okAt).1).length = 4 := by
  have htrace : setPWMFreq f readVal okAt =
      ([.readReg PCA9685_MODE1,
        .writeReg PCA9685_MODE1 ((readVal % 256 &&& 0x7F) ||| 0x10),
        .writeReg PCA9685_PRESCALE (prescaleOf f),
        .writeReg PCA9685_MODE1 (readVal % 256),
        .sleepUs 5000,
        .writeReg PCA9685_MODE1 (readVal % 256 ||| 0xA1)], 0, true) := by
    unfold setPWMFreq
    simp [hok]
  have hagree := prescale_agrees f h1 h2
  refine ⟨htrace, ?_, ?_, ?_, ?_⟩
  · rw [hagree]
    exact specPrescale_cast f (by omega) (by omega)
  · rw [hagree]
    unfold specPrescale
    have hb : 0 < 2 * (4096 * f) := by positivity
    have hlt : (2 * 25000000 + 4096 * f) / (2 * (4096 * f)) < 256 := by
      rw [Nat.div_lt_iff_lt_mul hb]
      omega
    omega
  · rw [htrace]
    rfl
  · rw [htrace]
    rfl

theorem C7_witness :
    (24 ≤ 50 ∧ 50 ≤ 1526) ∧ prescaleOf 50 < 256 ∧
    (readsOf (setPWMFreq 50 17 (fun _ => true)).1).length = 1 ∧
    (writesOf (setPWMFreq 50 17 (fun _ => true)).1).length = 4 := by
  have h := C7_freq_config 50 (by decide) (by decide) 17 (fun _ => true) (fun _ => rfl)
  exact ⟨⟨by decide, by decide⟩, h.2.2.1, h.2.2.2.1, h.2.2.2.2⟩

/-- C8: if the k-th register operation of the frequency-configuration
sequence is the first to fail at the transport, the call aborts
immediately (performs exactly k+1 register operations), increments the
error counter exactly once, and returns the failure. -/
theorem C8_abort_on_failure (f readVal : ℕ) (okAt : ℕ → Bool) (k : ℕ) (hk : k < 5)
    (hfail : okAt k = false) (hbefore : ∀ j, j < k → okAt j = true) :
    (setPWMFreq f readVal okAt).2.2 = false ∧
    (setPWMFreq f readVal okAt).2.1 = 1 ∧
    (regOpsOf (setPWMFreq f readVal okAt).1).length = k + 1 := by
  interval_cases k
  · simp [setPWMFreq, hfail, regOpsOf]
  · simp [setPWMFreq, hfail, hbefore 0 (by omega), regOpsOf]
  · simp [setPWMFreq, hfail, hbefore 0 (by omega), hbefore 1 (by omega), regOpsOf]
  · simp [setPWMFreq, hfail, hbefore 0 (by omega), hbefore 1 (by omega),
      hbefore 2 (by omega), regOpsOf]
  · simp [setPWMFreq, hfail, hbefore 0 (by omega), hbefore 1 (by omega),
      hbefore 2 (by omega), hbefore 3 (by omega), regOpsOf]

theorem C8_witness :
    (setPWMFreq 50 17 (fun j => decide (j < 2))).2.2 = false ∧
    (setPWMFreq 50 17 (fun j => decide (j < 2))).2.1 = 1 ∧
    (regOpsOf (setPWMFreq 50 17 (fun j => decide (j < 2))).1).length = 2 + 1 :=
  C8_abort_on_failure 50 17 (fun j => decide (j < 2)) 2 (by decide) (by decide) (by decide)


theorem C4_witness :
    ((runImpl initialState (some ⟨656, List.replicate 16 40000⟩) (fun _ => true)).map
      fun r => (r.1.pwm_period_us, r.1.pwm_freq)) = some (656, pcaFreq 656) ∧
    ((runImpl initialState (some ⟨655, List.replicate 16 40000⟩) (fun _ => true)).map
      fun r => (r.1.pwm_period_us, r.1.pwm_freq)) = some (20000, float32Of 50) ∧
    ((runImpl initialState (some ⟨41666, List.replicate 16 40000⟩) (fun _ => true)).map
      fun r => (r.1.pwm_period_us, r.1.pwm_freq)) = some (41666, pcaFreq 41666) ∧
    ((runImpl initialState (some ⟨41667, List.replicate 16 40000⟩) (fun _ => true)).map
      fun r => (r.1.pwm_period_us, r.1.pwm_freq)) = some (20000, float32Of 50) := by
  refine ⟨?_, ?_, ?_, ?_⟩
  · rw [C4_period_adoption initialState ⟨656, List.replicate 16 40000⟩ (fun _ => true) rfl]
    decide
  · rw [C4_period_adoption initialState ⟨655, List.replicate 16 40000⟩ (fun _ => true) rfl]
    decide
  · rw [C4_period_adoption initialState ⟨41666, List.replicate 16 40000⟩ (fun _ => true) rfl]
    decide
  · rw [C4_period_adoption initialState ⟨41667, List.replicate 16 40000⟩ (fun _ => true) rfl]
    decide

end PCA9685
